import Mathlib

/-!
# Verification of `scrape_foragidos.py`

Shallow embedding of the scraping script `src/scrape_foragidos.py` and proofs
about it.  The script drives a headless browser; here the rendered page is
modelled as static data (a list of cards and a list of images), and each pure
transformation of the script (whitespace normalisation, the city regex, the
name heuristic, URL resolution, the scroll-stabiliser control flow and the CSV
serialisation) is translated into an executable Lean function.

Character-level operations (`str.strip`, `\s`, `str.title`, `str.isupper`,
case-insensitive matching) are modelled over the alphabet actually relevant to
the script: ASCII characters plus the accented Portuguese letters that occur
in the regex character class of `extract_cidade`.  Characters outside this
alphabet are treated as uncased, exactly the characters the script's regexes
and data manipulate.
-/

namespace Foragidos

/-! ## Character utilities (Python string semantics) -/

/-- The whitespace characters of Python's `str.strip` / regex `\s`
(ASCII portion). -/
def pySpace (c : Char) : Bool :=
  c == ' ' || c == '\t' || c == '\n' || c == '\r' || c == '\x0b' || c == '\x0c'

/-- The accented uppercase letters listed in the character class of the
`Cidade` regex: `ÁÀÂÃÉÊÍÓÔÕÚÇ`. -/
def upperAcc : List Char := ['Á', 'À', 'Â', 'Ã', 'É', 'Ê', 'Í', 'Ó', 'Ô', 'Õ', 'Ú', 'Ç']

/-- Their lowercase counterparts (matched as well because the regex is
compiled with `re.I`). -/
def lowerAcc : List Char := ['á', 'à', 'â', 'ã', 'é', 'ê', 'í', 'ó', 'ô', 'õ', 'ú', 'ç']

def isAsciiUpper (c : Char) : Bool := 'A' ≤ c && c ≤ 'Z'

def isAsciiLower (c : Char) : Bool := 'a' ≤ c && c ≤ 'z'

/-- Uppercase letters of the modelled alphabet. -/
def isUpperCh (c : Char) : Bool := isAsciiUpper c || upperAcc.contains c

/-- Lowercase letters of the modelled alphabet. -/
def isLowerCh (c : Char) : Bool := isAsciiLower c || lowerAcc.contains c

/-- Cased characters (Python's notion restricted to the modelled alphabet). -/
def isCasedCh (c : Char) : Bool := isUpperCh c || isLowerCh c

/-- The uppercase/lowercase pairs of the accented letters. -/
def accPairs : List (Char × Char) :=
  [('Á', 'á'), ('À', 'à'), ('Â', 'â'), ('Ã', 'ã'), ('É', 'é'), ('Ê', 'ê'),
   ('Í', 'í'), ('Ó', 'ó'), ('Ô', 'ô'), ('Õ', 'õ'), ('Ú', 'ú'), ('Ç', 'ç')]

/-- Lowercasing over the modelled alphabet. -/
def toLowerCh (c : Char) : Char :=
  if isAsciiUpper c then Char.ofNat (c.toNat + 32)
  else
    match accPairs.find? (fun p => p.1 == c) with
    | some p => p.2
    | none => c

/-- Uppercasing over the modelled alphabet. -/
def toUpperCh (c : Char) : Char :=
  if isAsciiLower c then Char.ofNat (c.toNat - 32)
  else
    match accPairs.find? (fun p => p.2 == c) with
    | some p => p.1
    | none => c

/-- Case folding used for the script's case-insensitive (`re.I`) matching. -/
def foldChar (c : Char) : Char := toLowerCh c

/-! ## `norm`: `re.sub(r"\s+", " ", s.strip())` -/

/-- `str.strip()`: drop leading and trailing whitespace. -/
def stripChars (l : List Char) : List Char :=
  ((l.dropWhile pySpace).reverse.dropWhile pySpace).reverse

/-- Replace every maximal run of whitespace by a single space
(`re.sub(r"\s+", " ", ·)`). -/
def collapse : List Char → List Char
  | [] => []
  | [c] => if pySpace c then [' '] else [c]
  | c :: d :: rest =>
    if pySpace c && pySpace d then collapse (d :: rest)
    else (if pySpace c then ' ' else c) :: collapse (d :: rest)

/-- `norm(s)` from the script: strip, then collapse inner whitespace. -/
def norm (s : String) : String := String.mk (collapse (stripChars s.data))

/-- `str.strip()` on strings. -/
def pyStrip (s : String) : String := String.mk (stripChars s.data)

/-! ## `extract_cidade`: the regex
`Cidade\s*[:\-]?\s*([A-Za-zÁÀÂÃÉÊÍÓÔÕÚÇ\s\-]+)` with `re.I`

The pattern is fixed, so the backtracking search of `re.search` is embedded
directly: the literal `Cidade` is tried (case-insensitively) at each position
from the left; after it, the greedy `\s*`, the optional `[:\-]` and the second
greedy `\s*` backtrack in Python's order before the capturing group takes the
maximal nonempty run of class characters. -/

/-- The character class `[A-Za-zÁÀÂÃÉÊÍÓÔÕÚÇ\s\-]` under `re.I`
(the flag also admits the lowercase accented letters). -/
def cityClassCh (c : Char) : Bool :=
  isAsciiUpper c || isAsciiLower c || upperAcc.contains c || lowerAcc.contains c ||
    pySpace c || c == '-'

/-- Match a literal case-insensitively as a prefix, returning the remainder. -/
def litAt : List Char → List Char → Option (List Char)
  | [], s => some s
  | _ :: _, [] => none
  | p :: ps, c :: cs => if foldChar c == foldChar p then litAt ps cs else none

/-- The capturing group `([...]+)`: the maximal nonempty run of class
characters at the current position. -/
def classRun (l : List Char) : Option (List Char) :=
  let run := l.takeWhile cityClassCh
  if run = [] then none else some run

/-- Greedy `\s*` directly before the group: try consuming `i` characters
first, giving one back at a time (Python backtracking order). -/
def tryDrops (l : List Char) : Nat → Option (List Char)
  | 0 => classRun l
  | i + 1 =>
    match classRun (l.drop (i + 1)) with
    | some cap => some cap
    | none => tryDrops l i

/-- `\s*([...]+)`: greedy whitespace, then the group. -/
def spacesClass (l : List Char) : Option (List Char) :=
  tryDrops l (l.takeWhile pySpace).length

/-- `[:\-]?\s*([...]+)`: the optional separator is consumed greedily and given
back on failure. -/
def optClass : List Char → Option (List Char)
  | [] => none
  | c :: rest =>
    if c == ':' || c == '-' then
      match spacesClass rest with
      | some cap => some cap
      | none => spacesClass (c :: rest)
    else spacesClass (c :: rest)

/-- Greedy first `\s*` (after the literal), with backtracking. -/
def tryOuter (r : List Char) : Nat → Option (List Char)
  | 0 => optClass r
  | i + 1 =>
    match optClass (r.drop (i + 1)) with
    | some cap => some cap
    | none => tryOuter r i

/-- Everything after the literal `Cidade`:
`\s*[:\-]?\s*([...]+)` with Python's backtracking order. -/
def tailMatch (r : List Char) : Option (List Char) :=
  tryOuter r (r.takeWhile pySpace).length

def cidadeLit : List Char := ['c', 'i', 'd', 'a', 'd', 'e']

/-- `re.search` for the fixed pattern: leftmost position whose suffix starts
with the literal (case-insensitively) and whose tail matches; returns the
captured group. -/
def searchCidade : List Char → Option (List Char)
  | [] => none
  | c :: rest =>
    match litAt cidadeLit (c :: rest) with
    | some r =>
      match tailMatch r with
      | some cap => some cap
      | none => searchCidade rest
    | none => searchCidade rest

/-- `extract_cidade(texto)`: normalise, search the pattern, normalise the
captured group; `None` when the pattern does not match. -/
def extract_cidade (texto : String) : Option String :=
  match searchCidade (norm texto).data with
  | some cap => some (norm (String.mk cap))
  | none => none

/-! ## Python string helpers used by the name heuristic -/

/-- `str.splitlines()` accumulator: split on `\r\n`, `\n`, `\r`; no trailing
empty line. -/
def splitLinesAux : List Char → List Char → List (List Char)
  | [], acc => if acc = [] then [] else [acc.reverse]
  | '\r' :: '\n' :: rest, acc => acc.reverse :: splitLinesAux rest []
  | '\n' :: rest, acc => acc.reverse :: splitLinesAux rest []
  | '\r' :: rest, acc => acc.reverse :: splitLinesAux rest []
  | c :: rest, acc => splitLinesAux rest (c :: acc)

/-- `str.splitlines()`. -/
def pySplitlines (s : String) : List String :=
  (splitLinesAux s.data []).map String.mk

/-- `str.isupper()`: at least one cased character and no lowercase one. -/
def pyIsUpper (s : String) : Bool :=
  s.data.any isCasedCh && s.data.all (fun c => !(isLowerCh c))

/-- `str.title()` worker: a cased character is uppercased when the previous
character was not cased and lowercased otherwise. -/
def pyTitleAux : Bool → List Char → List Char
  | _, [] => []
  | prev, c :: rest =>
    if isCasedCh c then
      (if prev then toLowerCh c else toUpperCh c) :: pyTitleAux true rest
    else c :: pyTitleAux false rest

/-- `str.title()`. -/
def pyTitle (s : String) : String := String.mk (pyTitleAux false s.data)

/-- Python truthiness of an optional string (`None` and `""` are falsy). -/
def optTruthy : Option String → Bool
  | none => false
  | some s => s ≠ ""

/-! ## The label filter of the name heuristic

`re.search(r"Prontu[aá]rio|Cidade|Foragido desde|Visualizar|Clique Aqui|Pol[ií]cia|Penal|DCCP|DEPATE", ln, re.I)`:
a case-insensitive substring search for any alternative; the classes `[aá]`
and `[ií]` are expanded into two literals each. -/

/-- Case-insensitive substring test (via `foldChar`). -/
def containsFold (pat : List Char) : List Char → Bool
  | [] => false
  | c :: rest => (litAt pat (c :: rest)).isSome || containsFold pat rest

/-- The alternatives of the label regex, lowercased, classes expanded. -/
def labelPats : List String :=
  ["prontuario", "prontuário", "cidade", "foragido desde", "visualizar",
   "clique aqui", "policia", "polícia", "penal", "dccp", "depate"]

/-- One line of card text matches the label regex. -/
def labelHit (ln : String) : Bool :=
  labelPats.any (fun p => containsFold p.data ln.data)

/-- First element of maximal length (`max(ups, key=len)` keeps the earliest
maximum). -/
def firstMaxLen (x : String) (xs : List String) : String :=
  xs.foldl (fun best y => if best.length < y.length then y else best) x

/-- The name fallback of `collect_from_cards`: split the card text into
stripped nonempty lines, drop label lines, prefer the longest all-uppercase
line of length ≥ 5, else the first remaining line; title-case an
all-uppercase result. -/
def fallbackNome (txt : String) : Option String :=
  let linhas := ((pySplitlines txt).map pyStrip).filter (fun ln => ln ≠ "")
  let limpas := linhas.filter (fun ln => !(labelHit ln))
  let ups := limpas.filter (fun ln => pyIsUpper ln && 5 ≤ ln.length)
  let nome0 : Option String :=
    match ups with
    | [] => limpas.head?
    | u :: us => some (firstMaxLen u us)
  match nome0 with
  | none => none
  | some n => some (if n ≠ "" && pyIsUpper n then pyTitle n else n)

/-! ## `urljoin(URL, src)`

Model of `urllib.parse.urljoin` specialised to the fixed base
`https://seape.df.gov.br/foragidos/`, following CPython's algorithm for
hierarchical references: a reference with a scheme other than `https` is
returned unchanged; a reference with its own network location keeps it;
otherwise the path is merged with the base path and dot segments are
resolved.  Query and fragment delimiters are treated as ordinary path
characters (the script's image `src` values are plain paths). -/

def URL : String := "https://seape.df.gov.br/foragidos/"

def isSchemeCh (c : Char) : Bool :=
  isAsciiUpper c || isAsciiLower c || ('0' ≤ c && c ≤ '9') ||
    c == '+' || c == '-' || c == '.'

/-- Split a leading `scheme:` (first character a letter, rest scheme
characters, then a colon), as `urlsplit` does. -/
def splitScheme (l : List Char) : Option (List Char × List Char) :=
  match l with
  | c :: _ =>
    if isAsciiUpper c || isAsciiLower c then
      let run := l.takeWhile isSchemeCh
      match l.drop run.length with
      | ':' :: r => some (run, r)
      | _ => none
    else none
  | [] => none

/-- Split a string on `/` (Python `str.split('/')`). -/
def splitSlashAux : List Char → List Char → List (List Char)
  | [], acc => [acc.reverse]
  | '/' :: rest, acc => acc.reverse :: splitSlashAux rest []
  | c :: rest, acc => splitSlashAux rest (c :: acc)

def splitSlash (l : List Char) : List (List Char) := splitSlashAux l []

/-- CPython's dot-segment loop: `..` pops, `.` is dropped. -/
def dotResolve : List (List Char) → List (List Char) → List (List Char)
  | [], acc => acc.reverse
  | seg :: rest, acc =>
    if seg = ['.', '.'] then
      dotResolve rest (match acc with | [] => [] | _ :: t => t)
    else if seg = ['.'] then dotResolve rest acc
    else dotResolve rest (seg :: acc)

def joinSlash : List (List Char) → List Char
  | [] => []
  | [seg] => seg
  | seg :: rest => seg ++ '/' :: joinSlash rest

def baseSegs : List (List Char) := (splitSlash "/foragidos/".data).dropLast

/-- Resolve a scheme-less (or `https`-scheme-stripped) reference against the
base.  After the dot-segment loop, `urlunsplit` turns an empty path into `/`
and, the base having a netloc, re-prepends `/` to a rootless resolved path
(this is how CPython re-anchors `..`-climbing references at the root). -/
def resolveRest (rest : List Char) : String :=
  if rest.take 2 = ['/', '/'] then String.mk ('h' :: 't' :: 't' :: 'p' :: 's' :: ':' :: rest)
  else if rest = [] then URL
  else
    let segments :=
      if rest.take 1 = ['/'] then splitSlash rest
      else baseSegs ++ splitSlash rest
    let resolved := dotResolve segments []
    let resolved :=
      if segments.getLast? = some ['.'] || segments.getLast? = some ['.', '.'] then
        resolved ++ [[]]
      else resolved
    let path := joinSlash resolved
    let path := if path = [] then ['/'] else path
    let path := if path.take 1 = ['/'] then path else '/' :: path
    String.mk ("https://seape.df.gov.br".data ++ path)

/-- `urljoin(URL, url)`. -/
def urljoinBase (url : String) : String :=
  if url = "" then URL
  else
    match splitScheme url.data with
    | some (sch, rest) =>
      if sch.map foldChar = "https".data then resolveRest rest else url
    | none => resolveRest url.data

/-! ## The page model and the two extractors

The rendered page is static during extraction, so it is modelled as data: the
cards matched by `.product-grid-item-content` (in document order) and all
`img` elements of the page (in document order).  For a card, the script reads
the first nested image's `src` and `title` attributes and the card's visible
text; a missing attribute is `none`, an attribute present but empty is
`some ""`.  For an image, `containerText` holds what the script's JS snippet
returns: the `innerText` of the closest `.product-grid-item-content` ancestor,
else of the parent element, else `""`. -/

structure Card where
  imgSrc : Option String
  imgTitle : Option String
  text : String
deriving DecidableEq, Repr

structure Img where
  src : Option String
  title : Option String
  containerText : String
deriving DecidableEq, Repr

structure Page where
  cards : List Card
  imgs : List Img
deriving DecidableEq, Repr

/-- One row of `ordem, nome, cidade, foto_url`. -/
structure Record where
  ordem : Nat
  nome : Option String
  cidade : Option String
  foto_url : Option String
deriving DecidableEq, Repr

/-- `urljoin(URL, src) if src else None` (an absent or empty attribute is
falsy). -/
def fotoOf : Option String → Option String
  | some s => if s = "" then none else some (urljoinBase s)
  | none => none

/-- `title.title() if title else None`. -/
def nomeOfTitle : Option String → Option String
  | some t => if t = "" then none else some (pyTitle t)
  | none => none

/-- The record built for the card at 0-based position `i`
(the loop body of `collect_from_cards`). -/
def cardRecord (i : Nat) (c : Card) : Record :=
  { ordem := i + 1,
    nome :=
      if optTruthy (nomeOfTitle c.imgTitle) then nomeOfTitle c.imgTitle
      else fallbackNome c.text,
    cidade := extract_cidade c.text,
    foto_url := fotoOf c.imgSrc }

def collectCards : Nat → List Card → List Record
  | _, [] => []
  | i, c :: rest => cardRecord i c :: collectCards (i + 1) rest

/-- `collect_from_cards(page)`. -/
def collect_from_cards (p : Page) : List Record := collectCards 0 p.cards

/-- Case-sensitive substring test (the CSS `[src*=…]` attribute match). -/
def containsSub (pat : List Char) : List Char → Bool
  | [] => pat.isEmpty
  | c :: rest => pat.isPrefixOf (c :: rest) || containsSub pat rest

/-- The CSS selector `img[title], img[src*="imageminterno"]` of the fallback:
the `title` attribute is present (possibly empty), or the `src` contains the
marker. -/
def imgMatched (im : Img) : Bool :=
  im.title.isSome ||
    (match im.src with
     | some s => containsSub "imageminterno".data s.data
     | none => false)

/-- The loop body of `collect_from_images` for the candidate at 0-based
position `i`: `none` when the row is skipped because name, city and photo are
all falsy. -/
def imgRecord (i : Nat) (im : Img) : Option Record :=
  let r : Record :=
    { ordem := i + 1,
      nome := nomeOfTitle im.title,
      cidade := extract_cidade im.containerText,
      foto_url := fotoOf im.src }
  if optTruthy r.nome || optTruthy r.cidade || optTruthy r.foto_url then some r
  else none

def collectImgs : Nat → List Img → List Record
  | _, [] => []
  | i, im :: rest =>
    match imgRecord i im with
    | some r => r :: collectImgs (i + 1) rest
    | none => collectImgs (i + 1) rest

/-- `collect_from_images(page)`. -/
def collect_from_images (p : Page) : List Record :=
  collectImgs 0 (p.imgs.filter imgMatched)

/-! ## `main`: extraction phase, fallback decision and persistence -/

/-- The primary phase of `main`: `collect_from_cards` only runs when the
stabilised card count is positive (on the static page, that count is the
number of cards). -/
def primaryRows (p : Page) : List Record :=
  if 0 < p.cards.length then collect_from_cards p else []

/-- Number of times `main` invokes `collect_from_images`. -/
def fallbackRuns (p : Page) : Nat :=
  if primaryRows p = [] then 1 else 0

/-- The rows `main` persists. -/
def mainRows (p : Page) : List Record :=
  if primaryRows p = [] then collect_from_images p else primaryRows p

/-- One CSV cell: `None` serialises as the empty cell.  Quoting is not
modelled: no value produced by the extractors contains a comma, a quote or a
line break, so pandas' minimal quoting never triggers. -/
def csvCell : Option String → String
  | none => ""
  | some s => s

def csvRow (r : Record) : String :=
  toString r.ordem ++ "," ++ csvCell r.nome ++ "," ++ csvCell r.cidade ++ "," ++
    csvCell r.foto_url ++ "\n"

/-- `pd.DataFrame(all_rows).to_csv(CSV_NAME, index=False)`: the column header
comes from the dict keys, so an empty row list gives a frame with no columns
and the file holds a single blank line (no header). -/
def csvOutput (rows : List Record) : String :=
  if rows = [] then "\n"
  else "ordem,nome,cidade,foto_url\n" ++ String.join (rows.map csvRow)

/-- `main` writes `debug.html` and `debug.png` exactly when no rows were
collected. -/
def debugWritten (rows : List Record) : Bool := rows.length = 0

/-! ## The scroll stabiliser

`auto_scroll_until_stable` only interacts with the page through
`js_count(page, SEL_CARD)`, one call per loop iteration plus one after the
final scroll.  The page is modelled by the sequence `counts : Nat → Nat` of
values those successive polls return.  `scrollGo rem i last stable` is the
`for` loop with `rem` rounds remaining, loop index `i` and the Python locals
`last` (initially `-1`) and `stable`; it returns the number of iterations
executed.  The returned count of the whole routine is the poll made after
the loop's final scroll-to-bottom. -/

def scrollGo (counts : Nat → Nat) (minRounds : Nat) : Nat → Nat → Int → Nat → Nat
  | 0, i, _, _ => i
  | rem + 1, i, last, stable =>
    let c := counts i
    let stable1 := if (c : Int) = last then stable + 1 else 0
    if 5 ≤ stable1 ∧ minRounds ≤ i then i + 1
    else scrollGo counts minRounds rem (i + 1) (c : Int) stable1

/-- Iterations executed by the `for i in range(max_rounds)` loop. -/
def scrollIters (counts : Nat → Nat) (minRounds maxRounds : Nat) : Nat :=
  scrollGo counts minRounds maxRounds 0 (-1) 0

/-- `auto_scroll_until_stable`: runs the loop and returns the count polled
after the final scroll (poll number `scrollIters …`). -/
def auto_scroll_until_stable (counts : Nat → Nat) (minRounds : Nat := 6)
    (maxRounds : Nat := 90) : Nat :=
  counts (scrollIters counts minRounds maxRounds)

/-- The Python pair `(last, stable)` as it stands when iteration `k` begins
(`k` polls already made). -/
def scrollState (counts : Nat → Nat) : Nat → Int × Nat
  | 0 => (-1, 0)
  | k + 1 =>
    let p := scrollState counts k
    ((counts k : Int), if (counts k : Int) = p.1 then p.2 + 1 else 0)

/-- The break condition as evaluated at the end of iteration `i`. -/
def stopAt (counts : Nat → Nat) (minRounds i : Nat) : Prop :=
  5 ≤ (scrollState counts (i + 1)).2 ∧ minRounds ≤ i

instance (counts : Nat → Nat) (minRounds i : Nat) :
    Decidable (stopAt counts minRounds i) := by
  unfold stopAt; exact inferInstance

/-! ## Helper lemmas -/

/-- `scrollGo` executes at most `rem` further iterations. -/
theorem scrollGo_le (counts : Nat → Nat) (minR : Nat) :
    ∀ (rem i : Nat) (last : Int) (stable : Nat),
      scrollGo counts minR rem i last stable ≤ i + rem := by
  intro rem
  induction rem with
  | zero => intro i last stable; simp [scrollGo]
  | succ n ih =>
    intro i last stable
    simp only [scrollGo]
    by_cases h2 : 5 ≤ (if (counts i : Int) = last then stable + 1 else 0) ∧ minR ≤ i
    · rw [if_pos h2]; omega
    · rw [if_neg h2]
      have h := ih (i + 1) (counts i) (if (counts i : Int) = last then stable + 1 else 0)
      omega

/-- Characterisation of the loop: either it breaks right after the first
iteration whose end satisfies the break condition, or it runs all remaining
rounds. -/
theorem scrollGo_char (counts : Nat → Nat) (minR : Nat) :
    ∀ (rem i : Nat),
      (∃ j, i ≤ j ∧ j < i + rem ∧ stopAt counts minR j ∧
          (∀ k, i ≤ k → k < j → ¬ stopAt counts minR k) ∧
          scrollGo counts minR rem i (scrollState counts i).1 (scrollState counts i).2 = j + 1) ∨
      ((∀ j, i ≤ j → j < i + rem → ¬ stopAt counts minR j) ∧
          scrollGo counts minR rem i (scrollState counts i).1 (scrollState counts i).2 = i + rem) := by
  intro rem
  induction rem with
  | zero =>
    intro i
    right
    constructor
    · intro j h1 h2; omega
    · simp [scrollGo]
  | succ n ih =>
    intro i
    have hst : (if (counts i : Int) = (scrollState counts i).1
        then (scrollState counts i).2 + 1 else 0) = (scrollState counts (i + 1)).2 := by
      simp [scrollState]
    by_cases hb : stopAt counts minR i
    · left
      have hb1 : 5 ≤ (scrollState counts (i + 1)).2 ∧ minR ≤ i := hb
      refine ⟨i, le_refl i, by omega, hb, by intro k h1 h2; omega, ?_⟩
      simp only [scrollGo, hst]
      rw [if_pos hb1]
    · have hb1 : ¬(5 ≤ (scrollState counts (i + 1)).2 ∧ minR ≤ i) := hb
      have hrec : scrollGo counts minR (n + 1) i (scrollState counts i).1 (scrollState counts i).2 =
          scrollGo counts minR n (i + 1) (scrollState counts (i + 1)).1 (scrollState counts (i + 1)).2 := by
        simp only [scrollGo, hst]
        rw [if_neg hb1]
        have hlast : ((counts i : Int)) = (scrollState counts (i + 1)).1 := by
          simp [scrollState]
        rw [hlast]
      rcases ih (i + 1) with ⟨j, h1, h2, h3, h4, h5⟩ | ⟨h4, h5⟩
      · left
        refine ⟨j, by omega, by omega, h3, ?_, by rw [hrec]; exact h5⟩
        intro k hk1 hk2
        by_cases hk : k = i
        · subst hk; exact hb
        · exact h4 k (by omega) hk2
      · right
        refine ⟨?_, by rw [hrec, h5]; omega⟩
        intro j hj1 hj2
        by_cases hj : j = i
        · subst hj; exact hb
        · exact h4 j (by omega) (by omega)

/-- `collectCards` produces one record per card and numbers them
consecutively from `i + 1`. -/
theorem collectCards_map_ordem :
    ∀ (l : List Card) (i : Nat),
      (collectCards i l).map Record.ordem = List.range' (i + 1) l.length := by
  intro l
  induction l with
  | nil => intro i; simp [collectCards]
  | cons c rest ih =>
    intro i
    simp only [collectCards, List.map_cons, List.length_cons, cardRecord]
    rw [List.range'_succ]
    rw [ih (i + 1)]

theorem collectCards_length (l : List Card) (i : Nat) :
    (collectCards i l).length = l.length := by
  have h := collectCards_map_ordem l i
  have h1 : ((collectCards i l).map Record.ordem).length = (List.range' (i + 1) l.length).length := by
    rw [h]
  simpa using h1

/-- A record emitted for the candidate at position `i` carries `ordem = i + 1`. -/
theorem imgRecord_ordem (i : Nat) (im : Img) (r : Record)
    (h : imgRecord i im = some r) : r.ordem = i + 1 := by
  simp only [imgRecord] at h
  split at h
  · injection h with h1; rw [← h1]
  · cases h

/-- Bounds on the `ordem` of fallback records: between `i + 1` and
`i + ` number of remaining candidates. -/
theorem collectImgs_ordem_bounds :
    ∀ (l : List Img) (i : Nat) (r : Record), r ∈ collectImgs i l →
      i + 1 ≤ r.ordem ∧ r.ordem ≤ i + l.length := by
  intro l
  induction l with
  | nil => intro i r h; simp [collectImgs] at h
  | cons im rest ih =>
    intro i r h
    simp only [collectImgs] at h
    cases him : imgRecord i im with
    | some r0 =>
      rw [him] at h
      rcases List.mem_cons.mp h with h1 | h1
      · subst h1
        have := imgRecord_ordem i im r him
        simp only [List.length_cons]
        omega
      · have := ih (i + 1) r h1
        simp only [List.length_cons]
        omega
    | none =>
      rw [him] at h
      have := ih (i + 1) r h
      simp only [List.length_cons]
      omega

/-- The `ordem` values of fallback records are strictly increasing. -/
theorem collectImgs_ordem_sorted :
    ∀ (l : List Img) (i : Nat),
      ((collectImgs i l).map Record.ordem).Pairwise (· < ·) := by
  intro l
  induction l with
  | nil => intro i; simp [collectImgs]
  | cons im rest ih =>
    intro i
    simp only [collectImgs]
    cases him : imgRecord i im with
    | some r0 =>
      simp only [List.map_cons]
      constructor
      · intro b hb
        rcases List.mem_map.mp hb with ⟨r, hr, hb1⟩
        have hbnd := collectImgs_ordem_bounds rest (i + 1) r hr
        have h0 := imgRecord_ordem i im r0 him
        omega
      · exact ih (i + 1)
    | none => exact ih (i + 1)

/-- Every fallback record comes from the candidate at position
`ordem - 1` (0-based) of the remaining candidate list: the `ordem` field is
exactly the candidate's 1-based position. -/
theorem collectImgs_position :
    ∀ (l : List Img) (i : Nat) (r : Record), r ∈ collectImgs i l →
      ∃ im, l.get? (r.ordem - 1 - i) = some im ∧ imgRecord (r.ordem - 1) im = some r := by
  intro l
  induction l with
  | nil => intro i r h; simp [collectImgs] at h
  | cons im rest ih =>
    intro i r h
    simp only [collectImgs] at h
    cases him : imgRecord i im with
    | some r0 =>
      rw [him] at h
      rcases List.mem_cons.mp h with h1 | h1
      · subst h1
        have ho := imgRecord_ordem i im r him
        refine ⟨im, ?_, ?_⟩
        · rw [ho]; simp
        · rw [ho]; simpa using him
      · have hb := collectImgs_ordem_bounds rest (i + 1) r h1
        rcases ih (i + 1) r h1 with ⟨im2, h2, h3⟩
        refine ⟨im2, ?_, h3⟩
        have hk : r.ordem - 1 - i = (r.ordem - 1 - (i + 1)) + 1 := by omega
        rw [hk]
        simpa using h2
    | none =>
      rw [him] at h
      have hb := collectImgs_ordem_bounds rest (i + 1) r h
      rcases ih (i + 1) r h with ⟨im2, h2, h3⟩
      refine ⟨im2, ?_, h3⟩
      have hk : r.ordem - 1 - i = (r.ordem - 1 - (i + 1)) + 1 := by omega
      rw [hk]
      simpa using h2

/-! ## Character lemmas for the city capture and title casing -/

/-- The characters that can appear in a non-`None` `extract_cidade` result:
ASCII letters, the accented letters of the regex class (either case, the
pattern being case-insensitive), the space and the hyphen. -/
def cityOutCh (c : Char) : Bool :=
  isAsciiUpper c || isAsciiLower c || upperAcc.contains c || lowerAcc.contains c ||
    c == ' ' || c == '-'

theorem classRun_class (l cap : List Char) (h : classRun l = some cap) :
    ∀ c ∈ cap, cityClassCh c = true := by
  simp only [classRun] at h
  split at h
  · cases h
  · injection h with h1
    intro c hc
    rw [← h1] at hc
    exact List.mem_takeWhile_imp hc

theorem tryDrops_class (l : List Char) :
    ∀ (n : Nat) (cap : List Char), tryDrops l n = some cap → ∀ c ∈ cap, cityClassCh c = true := by
  intro n
  induction n with
  | zero => intro cap h; exact classRun_class l cap h
  | succ m ih =>
    intro cap h
    simp only [tryDrops] at h
    cases hc : classRun (l.drop (m + 1)) with
    | some cap2 =>
      rw [hc] at h
      injection h with h1
      subst h1
      exact classRun_class _ _ hc
    | none =>
      rw [hc] at h
      exact ih cap h

theorem spacesClass_class (l cap : List Char) (h : spacesClass l = some cap) :
    ∀ c ∈ cap, cityClassCh c = true :=
  tryDrops_class l _ cap h

theorem optClass_class (l cap : List Char) (h : optClass l = some cap) :
    ∀ c ∈ cap, cityClassCh c = true := by
  cases l with
  | nil => cases h
  | cons c0 rest =>
    simp only [optClass] at h
    split at h
    · cases hc : spacesClass rest with
      | some cap2 =>
        rw [hc] at h
        injection h with h1
        subst h1
        exact spacesClass_class _ _ hc
      | none =>
        rw [hc] at h
        exact spacesClass_class _ _ h
    · exact spacesClass_class _ _ h

theorem tryOuter_class (r : List Char) :
    ∀ (n : Nat) (cap : List Char), tryOuter r n = some cap → ∀ c ∈ cap, cityClassCh c = true := by
  intro n
  induction n with
  | zero => intro cap h; exact optClass_class r cap h
  | succ m ih =>
    intro cap h
    simp only [tryOuter] at h
    cases hc : optClass (r.drop (m + 1)) with
    | some cap2 =>
      rw [hc] at h
      injection h with h1
      subst h1
      exact optClass_class _ _ hc
    | none =>
      rw [hc] at h
      exact ih cap h

theorem tailMatch_class (r cap : List Char) (h : tailMatch r = some cap) :
    ∀ c ∈ cap, cityClassCh c = true :=
  tryOuter_class r _ cap h

theorem searchCidade_class :
    ∀ (l cap : List Char), searchCidade l = some cap → ∀ c ∈ cap, cityClassCh c = true := by
  intro l
  induction l with
  | nil => intro cap h; cases h
  | cons c0 rest ih =>
    intro cap h
    simp only [searchCidade] at h
    cases h1 : litAt cidadeLit (c0 :: rest) with
    | some r =>
      simp only [h1] at h
      cases h2 : tailMatch r with
      | some cap2 =>
        simp only [h2] at h
        injection h with h3
        subst h3
        exact tailMatch_class _ _ h2
      | none =>
        simp only [h2] at h
        exact ih cap h
    | none =>
      simp only [h1] at h
      exact ih cap h

/-- A successful search implies the label occurs (case-insensitively). -/
theorem searchCidade_label :
    ∀ (l cap : List Char), searchCidade l = some cap → containsFold cidadeLit l = true := by
  intro l
  induction l with
  | nil => intro cap h; cases h
  | cons c0 rest ih =>
    intro cap h
    simp only [searchCidade] at h
    cases h1 : litAt cidadeLit (c0 :: rest) with
    | some r =>
      simp [containsFold, h1]
    | none =>
      simp only [h1] at h
      simp only [containsFold, h1, Option.isSome_none, Bool.false_or]
      exact ih cap h

theorem mem_stripChars {c : Char} {l : List Char} (h : c ∈ stripChars l) : c ∈ l := by
  unfold stripChars at h
  rw [List.mem_reverse] at h
  have h1 := (List.dropWhile_sublist _).mem h
  rw [List.mem_reverse] at h1
  exact (List.dropWhile_sublist _).mem h1

/-- Every character of a collapsed string is either the replacement space or
a non-whitespace character of the original string. -/
theorem collapse_chars :
    ∀ (l : List Char) (c : Char), c ∈ collapse l → c = ' ' ∨ (c ∈ l ∧ pySpace c = false)
  | [], c, h => by simp [collapse] at h
  | [d], c, h => by
    by_cases hd : pySpace d
    · simp [collapse, hd] at h
      exact Or.inl h
    · simp only [collapse] at h
      rw [if_neg (by simpa using hd)] at h
      rcases List.mem_singleton.mp h with h1
      subst h1
      exact Or.inr ⟨List.mem_singleton_self _, by simpa using hd⟩
  | d :: e :: rest, c, h => by
    by_cases hde : (pySpace d && pySpace e) = true
    · rw [show collapse (d :: e :: rest) = collapse (e :: rest) by
        simp only [collapse]; rw [if_pos hde]] at h
      rcases collapse_chars (e :: rest) c h with h2 | ⟨h2, h3⟩
      · exact Or.inl h2
      · exact Or.inr ⟨List.mem_cons_of_mem _ h2, h3⟩
    · rw [show collapse (d :: e :: rest) =
          (if pySpace d then ' ' else d) :: collapse (e :: rest) by
        simp only [collapse]; rw [if_neg hde]] at h
      rcases List.mem_cons.mp h with h1 | h1
      · by_cases hd : pySpace d
        · rw [if_pos hd] at h1
          exact Or.inl h1
        · rw [if_neg hd] at h1
          subst h1
          exact Or.inr ⟨List.mem_cons_self _ _, by simpa using hd⟩
      · rcases collapse_chars (e :: rest) c h1 with h2 | ⟨h2, h3⟩
        · exact Or.inl h2
        · exact Or.inr ⟨List.mem_cons_of_mem _ h2, h3⟩

theorem norm_chars (s : String) (c : Char) (h : c ∈ (norm s).data) :
    c = ' ' ∨ (c ∈ s.data ∧ pySpace c = false) := by
  have h1 : c ∈ collapse (stripChars s.data) := h
  rcases collapse_chars _ c h1 with h2 | ⟨h2, h3⟩
  · exact Or.inl h2
  · exact Or.inr ⟨mem_stripChars h2, h3⟩

theorem cityClass_out {c : Char} (h1 : cityClassCh c = true) (h2 : pySpace c = false) :
    cityOutCh c = true := by
  simp only [cityClassCh, Bool.or_eq_true] at h1
  simp only [cityOutCh, Bool.or_eq_true]
  have h3 : ¬ (pySpace c = true) := by simp [h2]
  tauto

/-- `str.title()` preserves length. -/
theorem pyTitleAux_length (b : Bool) (l : List Char) :
    (pyTitleAux b l).length = l.length := by
  induction l generalizing b with
  | nil => rfl
  | cons c rest ih =>
    by_cases h : isCasedCh c = true <;> simp [pyTitleAux, h, ih]

theorem pyTitle_ne_empty (t : String) (h : t ≠ "") : pyTitle t ≠ "" := by
  intro hc
  apply h
  have h1 : (pyTitleAux false t.data).length = t.data.length := pyTitleAux_length false t.data
  have h2 : (pyTitleAux false t.data) = [] := congrArg String.data hc
  rw [h2] at h1
  have h3 : t.data = [] := by
    cases hd : t.data with
    | nil => rfl
    | cons a as => rw [hd] at h1; simp at h1
  cases t
  simp only [] at h3
  subst h3
  rfl

/-! ## Concrete pages used as witnesses and counterexamples -/

/-- A page on which both extractors come up empty. -/
def emptyPage : Page := ⟨[], []⟩

/-- A page whose first fallback candidate (an image with an empty `title`
attribute, no `src` and no surrounding text) is skipped, while the second is
kept. -/
def gapPage : Page := ⟨[], [⟨none, some "", ""⟩, ⟨none, some "AB", ""⟩]⟩

/-- A page with a single kept fallback candidate. -/
def oneImgPage : Page := ⟨[], [⟨none, some "AB", ""⟩]⟩

/-! ## Claim theorems -/

/-- C1 (counterexample): on a page where both extractors yield zero records,
the persisted CSV text is not the header row `ordem,nome,cidade,foto_url` —
an empty record list gives pandas a frame with no columns, so no header is
written (the diagnostics flag is set, as the claim says). -/
theorem C1_counterexample :
    mainRows emptyPage = [] ∧
    csvOutput (mainRows emptyPage) ≠ "ordem,nome,cidade,foto_url\n" ∧
    debugWritten (mainRows emptyPage) = true := by decide

/-- C1 (amended): if both the primary and the fallback extractor yield zero
records, the persisted CSV file contains no header and no data rows (it is a
single blank line), and the diagnostic artifacts (raw markup dump and
full-page screenshot) are written to disk. -/
theorem C1_zero_record_output (p : Page) (h : mainRows p = []) :
    csvOutput (mainRows p) = "\n" ∧ debugWritten (mainRows p) = true := by
  rw [h]
  exact ⟨rfl, by decide⟩

theorem C1_zero_record_output_witness :
    csvOutput (mainRows emptyPage) = "\n" ∧ debugWritten (mainRows emptyPage) = true :=
  C1_zero_record_output emptyPage (by decide)

/-- C2 (counterexample): the fallback extractor numbers records by candidate
position, not output position: on `gapPage` the only output record has
`ordem = 2`, so the first record does not carry `ordem = 1` and the numbering
is not dense. -/
theorem C2_counterexample :
    (collect_from_images gapPage).map Record.ordem = [2] ∧ (2 : Nat) ≠ 1 := by decide

/-- C2 (amended): the primary extractor's `ordem` is dense and 1-based (the
i-th record has `ordem = i`); the fallback extractor's `ordem` values are
strictly increasing, lie between 1 and the number of candidate images, and
equal the record's 1-based position among the candidates — the candidate at
0-based position `ordem - 1` is the one that produced the record — so gaps
appear where empty candidates are skipped. -/
theorem C2_ordem_numbering :
    (∀ p : Page, (collect_from_cards p).map Record.ordem = List.range' 1 p.cards.length) ∧
    (∀ p : Page, ((collect_from_images p).map Record.ordem).Pairwise (· < ·) ∧
      ∀ r, r ∈ collect_from_images p →
        (1 ≤ r.ordem ∧ r.ordem ≤ (p.imgs.filter imgMatched).length) ∧
        ∃ im, (p.imgs.filter imgMatched).get? (r.ordem - 1) = some im ∧
          imgRecord (r.ordem - 1) im = some r) := by
  constructor
  · intro p
    simpa using collectCards_map_ordem p.cards 0
  · intro p
    refine ⟨collectImgs_ordem_sorted _ 0, ?_⟩
    intro r hr
    have hb := collectImgs_ordem_bounds _ 0 r hr
    have hp := collectImgs_position _ 0 r hr
    exact ⟨by omega, hp⟩

theorem C2_ordem_numbering_witness :
    ((1 ≤ (Record.mk 1 (some "Ab") none none).ordem ∧
      (Record.mk 1 (some "Ab") none none).ordem ≤ (oneImgPage.imgs.filter imgMatched).length) ∧
     ∃ im,
       (oneImgPage.imgs.filter imgMatched).get? ((Record.mk 1 (some "Ab") none none).ordem - 1) =
         some im ∧
       imgRecord ((Record.mk 1 (some "Ab") none none).ordem - 1) im =
         some (Record.mk 1 (some "Ab") none none)) :=
  (C2_ordem_numbering.2 oneImgPage).2 (Record.mk 1 (some "Ab") none none) (by decide)

/-- C3: `main` invokes the fallback extractor exactly once iff the primary
phase yields zero records (which happens exactly when there are no cards, the
case in which the primary extractor is never run included), and never when
the primary phase produced at least one record. -/
theorem C3_fallback_invocation (p : Page) :
    (fallbackRuns p = 1 ↔ primaryRows p = []) ∧
    (fallbackRuns p = 0 ↔ primaryRows p ≠ []) ∧
    (primaryRows p = [] ↔ p.cards = []) := by
  have h3 : primaryRows p = [] ↔ p.cards = [] := by
    cases hc : p.cards with
    | nil => simp [primaryRows, hc, collect_from_cards]
    | cons c rest => simp [primaryRows, hc, collect_from_cards, collectCards]
  have h1 : fallbackRuns p = 1 ↔ primaryRows p = [] := by
    by_cases hp : primaryRows p = [] <;> simp [fallbackRuns, hp]
  have h2 : fallbackRuns p = 0 ↔ primaryRows p ≠ [] := by
    by_cases hp : primaryRows p = [] <;> simp [fallbackRuns, hp]
  exact ⟨h1, h2, h3⟩

/-- C4: the scroll loop exits after the first iteration at whose end the count
has been stable for 5 consecutive checks and the floor of 6 iterations is
reached, or after all 90 rounds, whichever comes first; the routine then
returns the count polled after the final scroll-to-bottom. -/
theorem C4_scroll_loop_exit (counts : Nat → Nat) :
    ((∃ j, j < 90 ∧ stopAt counts 6 j ∧ (∀ k, k < j → ¬ stopAt counts 6 k) ∧
        scrollIters counts 6 90 = j + 1) ∨
      ((∀ j, j < 90 → ¬ stopAt counts 6 j) ∧ scrollIters counts 6 90 = 90)) ∧
    auto_scroll_until_stable counts = counts (scrollIters counts 6 90) := by
  constructor
  · have h := scrollGo_char counts 6 90 0
    rcases h with ⟨j, h1, h2, h3, h4, h5⟩ | ⟨h4, h5⟩
    · left
      exact ⟨j, by omega, h3, fun k hk => h4 k (by omega) hk, h5⟩
    · right
      exact ⟨fun j hj => h4 j (by omega) (by omega), h5⟩
  · rfl

/-- C5: the scroll stabiliser executes at most its cap of 90 iterations on
every possible sequence of polled counts; on the page whose count is 0
forever it stops after 7 iterations (stability plus floor), well under the
cap. -/
theorem C5_scroll_terminates :
    (∀ counts : Nat → Nat, scrollIters counts 6 90 ≤ 90) ∧
    scrollIters (fun _ => 0) 6 90 = 7 := by
  constructor
  · intro counts
    have h := scrollGo_le counts 6 90 0 (-1) 0
    simpa using h
  · decide

/-- C6: `extract_cidade` on `"Cidade: Brasília - DF"` returns the
whitespace-normalised text after the label, `"Brasília - DF"`. -/
theorem C6_extract_cidade_brasilia :
    extract_cidade "Cidade: Brasília - DF" = some "Brasília - DF" := by decide

/-- A card whose image has no `title` attribute. -/
def noTitleCard : Card := ⟨none, none, "Prontuário: 123\nCidade: X\nJOÃO DA SILVA"⟩

/-- A card whose image carries an empty `title` attribute. -/
def emptyTitleCard : Card := ⟨none, some "", ""⟩

/-- A card whose image carries a nonempty `title` attribute. -/
def titledCard : Card := ⟨none, some "JOÃO DA SILVA", ""⟩

/-- An image with a nonempty `title` attribute. -/
def titledImg : Img := ⟨none, some "JOÃO DA SILVA", ""⟩

/-- C7: for a card whose image has no `title` attribute, the derived name is
exactly the line-scanning heuristic (strip lines, discard label lines, prefer
the longest all-uppercase line of length ≥ 5, else the first remaining line,
title-casing an all-uppercase result); in particular, on text with the label
lines `Prontuário: 123` and `Cidade: X` and the single uppercase line
`JOÃO DA SILVA`, that line is selected and title-cased. -/
theorem C7_name_heuristic (c : Card) (i : Nat) (h : c.imgTitle = none) :
    (cardRecord i c).nome = fallbackNome c.text ∧
    fallbackNome "Prontuário: 123\nCidade: X\nJOÃO DA SILVA" = some "João Da Silva" := by
  constructor
  · simp [cardRecord, h, nomeOfTitle, optTruthy]
  · decide

theorem C7_name_heuristic_witness :
    (cardRecord 0 noTitleCard).nome = fallbackNome noTitleCard.text ∧
    fallbackNome "Prontuário: 123\nCidade: X\nJOÃO DA SILVA" = some "João Da Silva" :=
  C7_name_heuristic noTitleCard 0 rfl

/-- C8 (counterexample): a card whose image has a `title` attribute that is
empty does not get the title-cased attribute value as its name — the script
treats an empty title as falsy and runs the heuristic instead, which here
yields no name at all. -/
theorem C8_counterexample :
    emptyTitleCard.imgTitle = some "" ∧
    (cardRecord 0 emptyTitleCard).nome = none ∧
    (cardRecord 0 emptyTitleCard).nome ≠ some (pyTitle "") := by decide

/-- C8 (amended): for every card (and every fallback candidate image) whose
image has a nonempty `title` attribute, the derived name is the title-cased
attribute value; in particular `JOÃO DA SILVA` becomes `João Da Silva`, not
the original uppercase string. -/
theorem C8_title_name (c : Card) (im : Img) (i : Nat) (t : String) :
    (c.imgTitle = some t → t ≠ "" → (cardRecord i c).nome = some (pyTitle t)) ∧
    (im.title = some t → t ≠ "" → ∀ r, imgRecord i im = some r → r.nome = some (pyTitle t)) ∧
    pyTitle "JOÃO DA SILVA" = "João Da Silva" := by
  refine ⟨?_, ?_, by decide⟩
  · intro h1 h2
    have hn : nomeOfTitle c.imgTitle = some (pyTitle t) := by
      simp [nomeOfTitle, h1, h2]
    have ht : optTruthy (nomeOfTitle c.imgTitle) = true := by
      rw [hn]
      simpa [optTruthy] using pyTitle_ne_empty t h2
    simp only [cardRecord]
    rw [if_pos ht]
    exact hn
  · intro h1 h2 r hr
    have hn : nomeOfTitle im.title = some (pyTitle t) := by
      simp [nomeOfTitle, h1, h2]
    have ht : optTruthy (nomeOfTitle im.title) = true := by
      rw [hn]
      simpa [optTruthy] using pyTitle_ne_empty t h2
    simp only [imgRecord, ht, Bool.true_or, if_true] at hr
    injection hr with hr1
    rw [← hr1]
    exact hn

theorem C8_title_name_witness :
    (cardRecord 0 titledCard).nome = some (pyTitle "JOÃO DA SILVA") ∧
    (∀ r, imgRecord 0 titledImg = some r → r.nome = some (pyTitle "JOÃO DA SILVA")) :=
  ⟨(C8_title_name titledCard titledImg 0 "JOÃO DA SILVA").1 rfl (by decide),
   (C8_title_name titledCard titledImg 0 "JOÃO DA SILVA").2.1 rfl (by decide)⟩

/-- C10: a non-`None` `extract_cidade` result contains only ASCII letters,
the accented letters of the regex class (in either case, the match being
case-insensitive), spaces and hyphens — never digits or other punctuation;
because `norm` collapses line breaks before matching, the capture can cross
an original line break (`"Cidade: X\nY"` yields `"X Y"`); and when the
normalised input contains no `Cidade` label the result is `None`. -/
theorem C10_city_charset (s t r : String) :
    (extract_cidade s = some r → ∀ c ∈ r.data, cityOutCh c = true) ∧
    extract_cidade "Cidade: X\nY" = some "X Y" ∧
    (containsFold cidadeLit (norm t).data = false → extract_cidade t = none) := by
  refine ⟨?_, by decide, ?_⟩
  · intro h c hc
    cases hs : searchCidade (norm s).data with
    | none => simp [extract_cidade, hs] at h
    | some cap =>
      simp only [extract_cidade, hs] at h
      injection h with h1
      rw [← h1] at hc
      rcases norm_chars _ c hc with h2 | ⟨h2, h3⟩
      · subst h2; decide
      · have h4 := searchCidade_class _ _ hs c h2
        exact cityClass_out h4 h3
  · intro h
    cases hs : searchCidade (norm t).data with
    | none => simp [extract_cidade, hs]
    | some cap =>
      have h5 := searchCidade_label _ _ hs
      rw [h] at h5
      cases h5

theorem C10_city_charset_witness :
    (∀ c ∈ "X Y".data, cityOutCh c = true) ∧ extract_cidade "sem rotulo" = none :=
  ⟨(C10_city_charset "Cidade: X\nY" "sem rotulo" "X Y").1 (by decide),
   (C10_city_charset "Cidade: X\nY" "sem rotulo" "X Y").2.2 (by decide)⟩

end Foragidos
